import Mathlib

/-!
Verification of the whiteboard capture backend (`src/main.py`).

The embedding below translates the data model and the operations of
`main.py` into Lean.  Python dicts are modelled as insertion-ordered
association lists (assignment overwrites a key in place, new keys are
appended, iteration follows insertion order — exactly CPython's dict
semantics).  Python sets of filenames are modelled as duplicate-free
lists.  Wall-clock time (`time.time()`), the Cloudinary datetime parser
(`datetime.strptime(...).timestamp()`), the remote folder listings and
the HTTP byte fetches are passed in as explicit parameters, since they
are the external world of the program.
-/

namespace Whiteboard

/-- An entry of `image_metadata` (`main.py`): a mapping value holding
`timestamp`, `cloudinary_id` and `url` for one stored image. -/
structure ImageRecord where
  timestamp : Int
  cloudinary_id : String
  url : String
deriving DecidableEq

/-- One resource returned by a Cloudinary folder listing, as consumed by
`fetch_cloudinary_folder_images`: `public_id`, optional `format`
(defaulted to `png` by the code), `created_at` (the code's
`resource.get('created_at', '')` empty-string default is kept), and
`secure_url`. -/
structure RemoteAsset where
  public_id : String
  format : Option String
  created_at : String
  secure_url : String
deriving DecidableEq

/-- One element of the JSON array returned by `/api/images`
(`{filename, timestamp, cloudinary_url}`); the download endpoints build
the same triples with the url under the key `url`. -/
structure VisibleImage where
  filename : String
  timestamp : Int
  url : String
deriving DecidableEq

/-- Lookup in a Python dict modelled as an association list. -/
def alistLookup {α : Type} : List (String × α) → String → Option α
  | [], _ => none
  | (k, v) :: rest, key => if k = key then some v else alistLookup rest key

/-- Assignment `d[key] = v` on a Python dict: overwrite in place if the
key is present, append otherwise. -/
def alistInsert {α : Type} : List (String × α) → String → α → List (String × α)
  | [], key, v => [(key, v)]
  | (k, w) :: rest, key, v =>
      if k = key then (key, v) :: rest else (k, w) :: alistInsert rest key v

/-- Deletion `del d[key]` on a Python dict: remove the entry with the
given key. -/
def alistErase {α : Type} : List (String × α) → String → List (String × α)
  | [], _ => []
  | (k, v) :: rest, key => if k = key then rest else (k, v) :: alistErase rest key

/-- The keys of a dict are pairwise distinct (true of every Python dict;
an invariant of the association-list model). -/
def keysNodup {α : Type} (m : List (String × α)) : Prop :=
  (m.map Prod.fst).Nodup

instance {α : Type} (m : List (String × α)) : Decidable (keysNodup m) :=
  inferInstanceAs (Decidable ((m.map Prod.fst).Nodup))

/-- `s.add(x)` on a Python set modelled as a duplicate-free list. -/
def setAdd (s : List String) (x : String) : List String :=
  if x ∈ s then s else s ++ [x]

/-- Does the second character list start with the first one. -/
def startsWithChars : List Char → List Char → Bool
  | [], _ => true
  | _ :: _, [] => false
  | a :: as, b :: bs => a == b && startsWithChars as bs

/-- Fuel-driven worker for `charsSplitOn` (fuel is the length of the
input, enough because every step consumes at least one character). -/
def splitOnFuel (sep : List Char) : Nat → List Char → List Char → List (List Char)
  | _, [], acc => [acc.reverse]
  | 0, s, acc => [acc.reverse ++ s]
  | fuel + 1, c :: rest, acc =>
      if startsWithChars sep (c :: rest) then
        acc.reverse :: splitOnFuel sep fuel ((c :: rest).drop sep.length) []
      else
        splitOnFuel sep fuel rest (c :: acc)

/-- Python `s.split(sep)` for a nonempty separator: split on every
non-overlapping occurrence, scanning left to right. -/
def charsSplitOn (sep s : List Char) : List (List Char) :=
  splitOnFuel sep s.length s []

/-- `os.path.basename(public_id)`: the part after the last `/`. -/
def basename (s : String) : String :=
  ⟨(charsSplitOn ['/'] s.data).getLastD s.data⟩

/-- Parse a string of decimal digits as a number (Python `int(...)` on
an `isdigit` string). -/
def digitsToNat (s : List Char) : Nat :=
  s.foldl (fun acc c => acc * 10 + (c.toNat - 48)) 0

/-- The code's timestamp-from-filename rule
(`fetch_cloudinary_folder_images`, lines 165-166): if `'whiteboard_'`
occurs in the base name and the text between the first occurrence and
the next `.` (Python `base.split('whiteboard_')[1].split('.')[0]`) is a
nonempty digit string, return those digits. -/
def whiteboardDigits (base : String) : Option Nat :=
  match charsSplitOn "whiteboard_".data base.data with
  | _ :: after :: _ =>
      match charsSplitOn ['.'] after with
      | seg :: _ =>
          if !seg.isEmpty && seg.all Char.isDigit then some (digitsToNat seg) else none
      | [] => none
  | _ => none

/-- Strip a leading character sequence, `none` if it is not a lead. -/
def dropLead : List Char → List Char → Option (List Char)
  | [], s => some s
  | _ :: _, [] => none
  | a :: as, b :: bs => if a = b then dropLead as bs else none

/-- Modelled from the spec: the anchored pattern `whiteboard_<digits>` —
the base name is exactly the literal `whiteboard_` followed by a
nonempty digit string.  (The spec describes the timestamp rule with this
pattern; the code's actual check is `whiteboardDigits`.) -/
def specPatternDigits (base : String) : Option Nat :=
  match dropLead "whiteboard_".data base.data with
  | some rest =>
      if !rest.isEmpty && rest.all Char.isDigit then some (digitsToNat rest) else none
  | none => none

/-- Timestamp fallback of the reconciler (lines 168-178): use the parsed
`created_at` when present and parseable, otherwise the current
wall-clock time.  `parse` stands for
`datetime.strptime(s, '%Y-%m-%dT%H:%M:%SZ').timestamp()`, with `none`
for a parse error. -/
def fallbackTimestamp (parse : String → Option Int) (now : Int) (created_at : String) : Int :=
  if created_at = "" then now
  else
    match parse created_at with
    | some t => t
    | none => now

/-- The timestamp the reconciler synthesizes for a remote asset not yet
known locally (lines 164-178). -/
def synthTimestamp (parse : String → Option Int) (now : Int) (a : RemoteAsset) : Int :=
  match whiteboardDigits (basename a.public_id) with
  | some d => (d : Int)
  | none => fallbackTimestamp parse now a.created_at

/-- Modelled from the spec: the timestamp rule as the spec words it,
with the anchored `whiteboard_<digits>` pattern instead of the code's
substring rule. -/
def specSynthTimestamp (parse : String → Option Int) (now : Int) (a : RemoteAsset) : Int :=
  match specPatternDigits (basename a.public_id) with
  | some d => (d : Int)
  | none => fallbackTimestamp parse now a.created_at

/-- The standardized filename the reconciler synthesizes (line 181):
`f"whiteboard_{timestamp}.{format}"`. -/
def synthFilename (ts : Int) (fmt : String) : String :=
  "whiteboard_" ++ toString ts ++ "." ++ fmt

/-- The duplicate check of the reconciler (lines 155-160): is any record
of the metadata already referencing this `cloudinary_id`. -/
def hasId (m : List (String × ImageRecord)) (pid : String) : Bool :=
  m.any (fun kv => kv.2.cloudinary_id == pid)

/-- Processing of one remote resource by
`fetch_cloudinary_folder_images` (lines 148-188): skip when the id is
already referenced, otherwise synthesize timestamp, filename and record
and insert into the metadata dict. -/
def processAsset (parse : String → Option Int) (now : Int)
    (m : List (String × ImageRecord)) (a : RemoteAsset) : List (String × ImageRecord) :=
  if hasId m a.public_id then m
  else
    alistInsert m (synthFilename (synthTimestamp parse now a) (a.format.getD "png"))
      ⟨synthTimestamp parse now a, a.public_id, a.secure_url⟩

/-- `fetch_cloudinary_folder_images` over one folder: every resource of
the (paginated) listing is processed in order with identical logic; the
listing parameter is the concatenation of the pages.  A failed remote
call is caught and leaves the metadata untouched, i.e. corresponds to
the empty listing. -/
def fetch_cloudinary_folder_images (parse : String → Option Int) (now : Int)
    (m : List (String × ImageRecord)) (listing : List RemoteAsset) :
    List (String × ImageRecord) :=
  listing.foldl (processAsset parse now) m

/-- `sync_cloudinary_images` (lines 121-136): reconcile the primary
folder's listing first, then each alternative folder's listing, in
order. -/
def sync_cloudinary_images (parse : String → Option Int) (now : Int)
    (m : List (String × ImageRecord)) (folders : List (List RemoteAsset)) :
    List (String × ImageRecord) :=
  folders.foldl (fetch_cloudinary_folder_images parse now) m

/-- How many records of the metadata reference the given remote id. -/
def countId (m : List (String × ImageRecord)) (pid : String) : Nat :=
  m.countP (fun kv => kv.2.cloudinary_id == pid)

/-- The visibility filter of `list_images` (lines 337-338), also
replicated verbatim in `download_all`, `download_pdf` and `status`: keep
an entry iff its filename was not deleted by this session and its
timestamp is at least the session start. -/
def visibleEntries (m : List (String × ImageRecord)) (dels : List String) (start : Int) :
    List VisibleImage :=
  (m.filter (fun kv => decide (kv.1 ∉ dels) && decide (start ≤ kv.2.timestamp))).map
    (fun kv => ⟨kv.1, kv.2.timestamp, kv.2.url⟩)

/-- `sorted(image_list, key=lambda x: x['timestamp'])` (line 346):
Python's stable sort by ascending timestamp, modelled by stable
insertion sort. -/
def sortByTs (l : List VisibleImage) : List VisibleImage :=
  List.insertionSort (fun a b => a.timestamp ≤ b.timestamp) l

/-- The image list `/api/images` computes for a metadata mapping, a
deletion set and a session start time (lines 332-346). -/
def listingOf (m : List (String × ImageRecord)) (dels : List String) (start : Int) :
    List VisibleImage :=
  sortByTs (visibleEntries m dels start)

/-- The whole process state: the metadata dict and the two per-session
dicts (`image_metadata`, `user_deleted_images`,
`user_session_start_times`). -/
structure AppState where
  image_metadata : List (String × ImageRecord)
  user_deleted_images : List (String × List String)
  user_session_start_times : List (String × Int)
deriving DecidableEq

/-- Responses of `/api/images`. -/
inductive ListImagesResult where
  | noSession
  | listing (l : List VisibleImage)
deriving DecidableEq

/-- `list_images` (lines 320-348): 401 without a session identity;
otherwise sync with Cloudinary, then list the visible images sorted by
ascending timestamp.  Both per-session lookups use `.get` defaults
(`0` and the empty set). -/
def list_images (parse : String → Option Int) (now : Int) (folders : List (List RemoteAsset))
    (st : AppState) (user_id : Option String) : ListImagesResult × AppState :=
  match user_id with
  | none => (.noSession, st)
  | some uid =>
      let m' := sync_cloudinary_images parse now st.image_metadata folders
      let start := (alistLookup st.user_session_start_times uid).getD 0
      let dels := (alistLookup st.user_deleted_images uid).getD []
      (.listing (listingOf m' dels start), { st with image_metadata := m' })

/-- Responses of `/api/images/<filename>`.  `serverError` models the
uncaught `KeyError` of `user_deleted_images[user_id]` for an identity
unknown to the registry. -/
inductive GetImageResult where
  | noSession
  | serverError
  | notAvailable
  | redirectTo (url : String)
  | localFile (name : String)
deriving DecidableEq

/-- `get_image` (lines 351-368): 401 without a session; 404 when the
filename is in this session's deleted set; redirect to the stored url
when the filename is known; otherwise sync first and retry, falling
back to the local directory. -/
def get_image (parse : String → Option Int) (now : Int) (folders : List (List RemoteAsset))
    (st : AppState) (user_id : Option String) (filename : String) :
    GetImageResult × AppState :=
  match user_id with
  | none => (.noSession, st)
  | some uid =>
      match alistLookup st.user_deleted_images uid with
      | none => (.serverError, st)
      | some dels =>
          if filename ∈ dels then (.notAvailable, st)
          else
            match alistLookup st.image_metadata filename with
            | some r => (.redirectTo r.url, st)
            | none =>
                let m' := sync_cloudinary_images parse now st.image_metadata folders
                let st' := { st with image_metadata := m' }
                match alistLookup m' filename with
                | some r => (.redirectTo r.url, st')
                | none => (.localFile filename, st')

/-- Responses of `DELETE /api/delete/<filename>`.  `serverError` models
the uncaught `KeyError` of `user_deleted_images[user_id].add(...)`. -/
inductive DeleteResult where
  | noSession
  | serverError
  | deleted
deriving DecidableEq

/-- `delete_image` (lines 285-305): 401 without a session; if the
filename is known, try to destroy the remote asset and drop the
metadata record — an exception from the remote call (`destroyRaises`)
is caught and printed, leaving the record in place; in every case the
filename is added to this session's deleted set and 200 is returned. -/
def delete_image (destroyRaises : Bool) (st : AppState) (user_id : Option String)
    (filename : String) : DeleteResult × AppState :=
  match user_id with
  | none => (.noSession, st)
  | some uid =>
      let st1 :=
        match alistLookup st.image_metadata filename with
        | some _ =>
            if destroyRaises then st
            else { st with image_metadata := alistErase st.image_metadata filename }
        | none => st
      match alistLookup st1.user_deleted_images uid with
      | none => (.serverError, st1)
      | some dels =>
          (.deleted,
            { st1 with
              user_deleted_images := alistInsert st1.user_deleted_images uid (setAdd dels filename) })

/-- Responses of `/api/reset-session`. -/
inductive ResetResult where
  | noSession
  | resetOk (new_start_time : Int)
deriving DecidableEq

/-- `reset_session` (lines 483-494): 401 without a session; otherwise
set the session start time to now and clear the session's deleted
set. -/
def reset_session (now : Int) (st : AppState) (user_id : Option String) :
    ResetResult × AppState :=
  match user_id with
  | none => (.noSession, st)
  | some uid =>
      (.resetOk now,
        { st with
          user_session_start_times := alistInsert st.user_session_start_times uid now,
          user_deleted_images := alistInsert st.user_deleted_images uid [] })

/-- The zip-building loop of `download_all` (lines 399-403): fetch each
visible image's bytes in listing order and write an entry
`(filename, content)` for each fetch that returns status 200 (`fetch`
returns `none` for a non-success status). -/
def download_all_entries (fetch : String → Option String)
    (m : List (String × ImageRecord)) (dels : List String) (start : Int) :
    List (String × String) :=
  (listingOf m dels start).foldl
    (fun zf img =>
      match fetch img.url with
      | some content => zf ++ [(img.filename, content)]
      | none => zf)
    []

/-- The page-emitting loop of `download_pdf` (lines 439-444): one page,
drawn from the fetched bytes, per visible image whose fetch succeeds,
in listing order. -/
def download_pdf_pages (fetch : String → Option String)
    (m : List (String × ImageRecord)) (dels : List String) (start : Int) : List String :=
  (listingOf m dels start).foldl
    (fun pages img =>
      match fetch img.url with
      | some content => pages ++ [content]
      | none => pages)
    []

/-- Responses of `/api/download`. -/
inductive DownloadResult where
  | noSession
  | zipFile (entries : List (String × String))
deriving DecidableEq

/-- `download_all` (lines 371-406): 401 without a session; otherwise
sync, filter and sort exactly as `/api/images` does, and build the zip
entries. -/
def download_all (parse : String → Option Int) (now : Int) (folders : List (List RemoteAsset))
    (fetch : String → Option String) (st : AppState) (user_id : Option String) :
    DownloadResult × AppState :=
  match user_id with
  | none => (.noSession, st)
  | some uid =>
      let m' := sync_cloudinary_images parse now st.image_metadata folders
      let start := (alistLookup st.user_session_start_times uid).getD 0
      let dels := (alistLookup st.user_deleted_images uid).getD []
      (.zipFile (download_all_entries fetch m' dels start), { st with image_metadata := m' })

/-- Responses of `/api/download-pdf`. -/
inductive PdfResult where
  | noSession
  | pdfFile (pages : List String)
deriving DecidableEq

/-- `download_pdf` (lines 409-448): 401 without a session; otherwise
sync, filter and sort exactly as `/api/images` does, and emit one page
per successfully fetched image. -/
def download_pdf (parse : String → Option Int) (now : Int) (folders : List (List RemoteAsset))
    (fetch : String → Option String) (st : AppState) (user_id : Option String) :
    PdfResult × AppState :=
  match user_id with
  | none => (.noSession, st)
  | some uid =>
      let m' := sync_cloudinary_images parse now st.image_metadata folders
      let start := (alistLookup st.user_session_start_times uid).getD 0
      let dels := (alistLookup st.user_deleted_images uid).getD []
      (.pdfFile (download_pdf_pages fetch m' dels start), { st with image_metadata := m' })

/-- A concrete stand-in for the Cloudinary datetime parser mapping one
fixed `created_at` string to one fixed unix timestamp; used to evaluate
the model on explicit inputs. -/
def parseFixed (key : String) (value : Int) : String → Option Int :=
  fun s => if s = key then some value else none

/-- A concrete stand-in for the per-image byte fetch that fails (returns
a non-success status) exactly on one url; used to evaluate the model on
explicit inputs. -/
def fetchExcept (badUrl : String) : String → Option String :=
  fun u => if u = badUrl then none else some ("bytes:" ++ u)

/-! Helper lemmas about the association-list dict model. -/

theorem alistLookup_insert_self {α : Type} (m : List (String × α)) (k : String) (v : α) :
    alistLookup (alistInsert m k v) k = some v := by
  induction m with
  | nil => simp [alistInsert, alistLookup]
  | cons kv rest ih =>
      by_cases h : kv.1 = k
      · simp [alistInsert, h, alistLookup]
      · simpa [alistInsert, h, alistLookup] using ih

theorem alistLookup_mem {α : Type} {m : List (String × α)} {k : String} {v : α}
    (h : alistLookup m k = some v) : (k, v) ∈ m := by
  induction m with
  | nil => simp [alistLookup] at h
  | cons kv rest ih =>
      obtain ⟨a, b⟩ := kv
      by_cases hk : a = k
      · subst hk
        simp only [alistLookup, if_pos] at h
        have hb : b = v := Option.some.inj h
        subst hb
        exact List.mem_cons_self _ _
      · simp only [alistLookup, hk, if_neg, not_false_iff] at h
        exact List.mem_cons_of_mem _ (ih h)

theorem alistLookup_eq_of_mem_nodup {α : Type} {m : List (String × α)} {k : String} {v : α}
    (hnd : keysNodup m) (hmem : (k, v) ∈ m) : alistLookup m k = some v := by
  induction m with
  | nil => simp at hmem
  | cons kv rest ih =>
      rcases List.mem_cons.mp hmem with h | h
      · subst h
        simp [alistLookup]
      · have hk : kv.1 ≠ k := by
          intro he
          have : kv.1 ∈ rest.map Prod.fst := by
            rw [he]
            exact List.mem_map.mpr ⟨(k, v), h, rfl⟩
          exact (List.nodup_cons.mp hnd).1 this
        have hnd' : keysNodup rest := (List.nodup_cons.mp hnd).2
        simp [alistLookup, hk, ih hnd' h]

theorem alistLookup_isSome_of_mem {α : Type} {m : List (String × α)} {k : String} {v : α}
    (hmem : (k, v) ∈ m) : ∃ w, alistLookup m k = some w := by
  induction m with
  | nil => simp at hmem
  | cons kv rest ih =>
      by_cases hk : kv.1 = k
      · exact ⟨kv.2, by simp [alistLookup, hk]⟩
      · rcases List.mem_cons.mp hmem with h | h
        · exact absurd (congrArg Prod.fst h).symm hk
        · rcases ih h with ⟨w, hw⟩
          exact ⟨w, by simp [alistLookup, hk, hw]⟩

theorem mem_setAdd_self (s : List String) (x : String) : x ∈ setAdd s x := by
  by_cases h : x ∈ s
  · simp [setAdd, h]
  · simp [setAdd, h]

/-! Helper lemmas about the listing (filter + stable sort). -/

instance : IsTotal VisibleImage (fun a b => a.timestamp ≤ b.timestamp) :=
  ⟨fun a b => le_total a.timestamp b.timestamp⟩

instance : IsTrans VisibleImage (fun a b => a.timestamp ≤ b.timestamp) :=
  ⟨fun _ _ _ hab hbc => le_trans hab hbc⟩

theorem sortByTs_perm (l : List VisibleImage) : List.Perm (sortByTs l) l :=
  List.perm_insertionSort _ l

theorem sorted_listingOf (m : List (String × ImageRecord)) (dels : List String) (start : Int) :
    List.Pairwise (fun a b => a.timestamp ≤ b.timestamp) (listingOf m dels start) :=
  List.sorted_insertionSort _ (visibleEntries m dels start)

theorem mem_listingOf {x : VisibleImage} {m : List (String × ImageRecord)}
    {dels : List String} {start : Int} :
    x ∈ listingOf m dels start ↔ x ∈ visibleEntries m dels start :=
  (sortByTs_perm (visibleEntries m dels start)).mem_iff

theorem mem_visibleEntries {x : VisibleImage} {m : List (String × ImageRecord)}
    {dels : List String} {start : Int} :
    x ∈ visibleEntries m dels start ↔
      ∃ kv, kv ∈ m ∧ kv.1 ∉ dels ∧ start ≤ kv.2.timestamp ∧
        x = ⟨kv.1, kv.2.timestamp, kv.2.url⟩ := by
  simp only [visibleEntries, List.mem_map, List.mem_filter, Bool.and_eq_true,
    decide_eq_true_eq]
  constructor
  · rintro ⟨kv, ⟨hmem, hdel, hts⟩, rfl⟩
    exact ⟨kv, hmem, hdel, hts, rfl⟩
  · rintro ⟨kv, hmem, hdel, hts, rfl⟩
    exact ⟨kv, ⟨hmem, hdel, hts⟩, rfl⟩

theorem filename_mem_listingOf {fname : String} {m : List (String × ImageRecord)}
    {dels : List String} {start : Int} :
    fname ∈ (listingOf m dels start).map VisibleImage.filename ↔
      ∃ kv, kv ∈ m ∧ kv.1 = fname ∧ kv.1 ∉ dels ∧ start ≤ kv.2.timestamp := by
  rw [List.mem_map]
  constructor
  · rintro ⟨x, hx, rfl⟩
    rcases mem_visibleEntries.mp (mem_listingOf.mp hx) with ⟨kv, hmem, hdel, hts, rfl⟩
    exact ⟨kv, hmem, rfl, hdel, hts⟩
  · rintro ⟨kv, hmem, rfl, hdel, hts⟩
    exact ⟨⟨kv.1, kv.2.timestamp, kv.2.url⟩,
      mem_listingOf.mpr (mem_visibleEntries.mpr ⟨kv, hmem, hdel, hts, rfl⟩), rfl⟩

theorem nodup_listingOf_filenames {m : List (String × ImageRecord)}
    {dels : List String} {start : Int} (hnd : keysNodup m) :
    ((listingOf m dels start).map VisibleImage.filename).Nodup := by
  have hperm : List.Perm ((listingOf m dels start).map VisibleImage.filename)
      ((visibleEntries m dels start).map VisibleImage.filename) :=
    (sortByTs_perm (visibleEntries m dels start)).map VisibleImage.filename
  rw [hperm.nodup_iff]
  have hkeys : (visibleEntries m dels start).map VisibleImage.filename =
      (m.filter (fun kv => decide (kv.1 ∉ dels) && decide (start ≤ kv.2.timestamp))).map
        Prod.fst := by
    simp [visibleEntries, Function.comp]
  rw [hkeys]
  have hsub : List.Sublist
      ((m.filter
        (fun kv => decide (kv.1 ∉ dels) && decide (start ≤ kv.2.timestamp))).map Prod.fst)
      (m.map Prod.fst) :=
    (List.filter_sublist m).map Prod.fst
  exact hnd.sublist hsub

/-! Helper lemmas about the export loops. -/

theorem zip_foldl_eq_filterMap (fetch : String → Option String) (l : List VisibleImage)
    (acc : List (String × String)) :
    l.foldl
        (fun zf img =>
          match fetch img.url with
          | some content => zf ++ [(img.filename, content)]
          | none => zf)
        acc
      = acc ++ l.filterMap (fun i => (fetch i.url).map (fun c => (i.filename, c))) := by
  induction l generalizing acc with
  | nil => simp
  | cons x l ih =>
      cases hx : fetch x.url with
      | none => simp [List.foldl_cons, hx, ih]
      | some c => simp [List.foldl_cons, hx, ih]

theorem pdf_foldl_eq_filterMap (fetch : String → Option String) (l : List VisibleImage)
    (acc : List String) :
    l.foldl
        (fun pages img =>
          match fetch img.url with
          | some content => pages ++ [content]
          | none => pages)
        acc
      = acc ++ l.filterMap (fun i => fetch i.url) := by
  induction l generalizing acc with
  | nil => simp
  | cons x l ih =>
      cases hx : fetch x.url with
      | none => simp [List.foldl_cons, hx, ih]
      | some c => simp [List.foldl_cons, hx, ih]

theorem download_all_entries_eq (fetch : String → Option String)
    (m : List (String × ImageRecord)) (dels : List String) (start : Int) :
    download_all_entries fetch m dels start
      = (listingOf m dels start).filterMap
          (fun i => (fetch i.url).map (fun c => (i.filename, c))) := by
  simpa using zip_foldl_eq_filterMap fetch (listingOf m dels start) []

theorem download_pdf_pages_eq (fetch : String → Option String)
    (m : List (String × ImageRecord)) (dels : List String) (start : Int) :
    download_pdf_pages fetch m dels start
      = (listingOf m dels start).filterMap (fun i => fetch i.url) := by
  simpa using pdf_foldl_eq_filterMap fetch (listingOf m dels start) []

theorem zip_entry_names (fetch : String → Option String) (l : List VisibleImage) :
    (l.filterMap (fun i => (fetch i.url).map (fun c => (i.filename, c)))).map Prod.fst
      = (l.filter (fun i => (fetch i.url).isSome)).map VisibleImage.filename := by
  induction l with
  | nil => simp
  | cons x l ih =>
      cases hx : fetch x.url with
      | none => simp [hx, ih]
      | some c => simp [hx, ih]

theorem pdf_pages_as_filter (fetch : String → Option String) (l : List VisibleImage) :
    l.filterMap (fun i => fetch i.url)
      = (l.filter (fun i => (fetch i.url).isSome)).map (fun i => (fetch i.url).getD "") := by
  induction l with
  | nil => simp
  | cons x l ih =>
      cases hx : fetch x.url with
      | none => simp [hx, ih]
      | some c => simp [hx, ih]

/-! Helper lemmas about the reconciler. -/

theorem processAsset_of_hasId (parse : String → Option Int) (now : Int)
    {m : List (String × ImageRecord)} {a : RemoteAsset}
    (h : hasId m a.public_id = true) : processAsset parse now m a = m := by
  simp [processAsset, h]

theorem foldl_processAsset_skip (parse : String → Option Int) (now : Int)
    {m : List (String × ImageRecord)} {l : List RemoteAsset}
    (h : ∀ a ∈ l, hasId m a.public_id = true) :
    l.foldl (processAsset parse now) m = m := by
  induction l with
  | nil => rfl
  | cons a l ih =>
      rw [List.foldl_cons, processAsset_of_hasId parse now (h a (List.mem_cons_self a l))]
      exact ih fun b hb => h b (List.mem_cons_of_mem a hb)

theorem hasId_alistInsert_self (m : List (String × ImageRecord)) (f : String)
    (ts : Int) (pid u : String) :
    hasId (alistInsert m f ⟨ts, pid, u⟩) pid = true := by
  induction m with
  | nil => simp [alistInsert, hasId]
  | cons kv rest ih =>
      by_cases h : kv.1 = f
      · simp [alistInsert, h, hasId]
      · simp only [alistInsert, h, if_neg, not_false_iff, hasId, List.any_cons]
        simp only [hasId] at ih
        simp [ih]

theorem countId_eq_zero_of_not_hasId {m : List (String × ImageRecord)} {pid : String}
    (h : hasId m pid = false) : countId m pid = 0 := by
  induction m with
  | nil => rfl
  | cons kv rest ih =>
      simp only [hasId, List.any_cons, Bool.or_eq_false_iff] at h
      have hrest : hasId rest pid = false := h.2
      rw [countId, List.countP_cons, ← countId, ih hrest]
      simp [h.1]

theorem countId_alistInsert_fresh {m : List (String × ImageRecord)} {pid : String}
    (f : String) (ts : Int) (u : String) (h : hasId m pid = false) :
    countId (alistInsert m f ⟨ts, pid, u⟩) pid = 1 := by
  induction m with
  | nil => simp [alistInsert, countId, List.countP_cons]
  | cons kv rest ih =>
      simp only [hasId, List.any_cons, Bool.or_eq_false_iff] at h
      have hrest : hasId rest pid = false := h.2
      by_cases hk : kv.1 = f
      · have hstep : alistInsert (kv :: rest) f
            (⟨ts, pid, u⟩ : ImageRecord) = (f, ⟨ts, pid, u⟩) :: rest := by
          simp [alistInsert, hk]
        rw [hstep, countId, List.countP_cons, ← countId, countId_eq_zero_of_not_hasId hrest]
        simp
      · have hstep : alistInsert (kv :: rest) f (⟨ts, pid, u⟩ : ImageRecord)
            = kv :: alistInsert rest f ⟨ts, pid, u⟩ := by
          simp [alistInsert, hk]
        rw [hstep, countId, List.countP_cons, ← countId, ih hrest]
        simp [h.1]

/-! The claims. -/

/-- C1: for every session (deletion set `dels`, start time `start`) and
every image record in the (post-sync) metadata store, the record's
filename appears in the `/api/images` listing iff its timestamp is at
least the session start and its filename is not in the session's
deletion set. -/
theorem c1_listing_visibility_iff
    (parse : String → Option Int) (now : Int) (folders : List (List RemoteAsset))
    (st : AppState) (uid fname : String) (dels : List String) (start : Int) (r : ImageRecord)
    (hdel : alistLookup st.user_deleted_images uid = some dels)
    (hstart : alistLookup st.user_session_start_times uid = some start)
    (hnd : keysNodup (sync_cloudinary_images parse now st.image_metadata folders))
    (hrec : alistLookup (sync_cloudinary_images parse now st.image_metadata folders) fname
      = some r) :
    (list_images parse now folders st (some uid)).1
      = .listing
          (listingOf (sync_cloudinary_images parse now st.image_metadata folders) dels start)
    ∧ (fname ∈ (listingOf (sync_cloudinary_images parse now st.image_metadata folders)
          dels start).map VisibleImage.filename
        ↔ (start ≤ r.timestamp ∧ fname ∉ dels)) := by
  constructor
  · simp [list_images, hdel, hstart]
  · rw [filename_mem_listingOf]
    constructor
    · rintro ⟨⟨k, v⟩, hmem, hfn, hdel2, hts⟩
      simp only at hfn
      subst hfn
      have hv := alistLookup_eq_of_mem_nodup hnd hmem
      rw [hrec] at hv
      have hvr : v = r := (Option.some.inj hv).symm
      subst hvr
      exact ⟨hts, hdel2⟩
    · rintro ⟨hts, hdel2⟩
      exact ⟨(fname, r), alistLookup_mem hrec, rfl, hdel2, hts⟩

/-- C9: `GET /api/images/<filename>` does not enforce the session time
window: for an established session and any filename present in the
metadata store and not in the session's deletion set, the request
redirects to the stored url even when the record's timestamp is
strictly below the session's start time. -/
theorem c9_get_image_ignores_time_window
    (parse : String → Option Int) (now : Int) (folders : List (List RemoteAsset))
    (st : AppState) (uid fname : String) (dels : List String) (start : Int) (r : ImageRecord)
    (hdel : alistLookup st.user_deleted_images uid = some dels)
    (hnotdel : fname ∉ dels)
    (hrec : alistLookup st.image_metadata fname = some r)
    (hstart : alistLookup st.user_session_start_times uid = some start)
    (hts : r.timestamp < start) :
    (get_image parse now folders st (some uid) fname).1 = .redirectTo r.url := by
  simp [get_image, hdel, hnotdel, hrec]

/-- C10: for an established session, `DELETE /api/delete/<filename>`
returns 200 for every filename (present in the metadata store or not)
and adds the filename to the session's deletion set; and when the
remote delete call raises, the exception is swallowed, the whole
metadata store (in particular the record for that filename) is
retained, and the response is still 200. -/
theorem c10_delete_always_succeeds
    (destroyRaises : Bool) (st : AppState) (uid fname : String) (dels : List String)
    (hdel : alistLookup st.user_deleted_images uid = some dels) :
    (delete_image destroyRaises st (some uid) fname).1 = .deleted
    ∧ fname ∈ (alistLookup
        ((delete_image destroyRaises st (some uid) fname).2).user_deleted_images uid).getD []
    ∧ (destroyRaises = true →
        ((delete_image destroyRaises st (some uid) fname).2).image_metadata
          = st.image_metadata) := by
  cases hm : alistLookup st.image_metadata fname with
  | none =>
      refine ⟨by simp [delete_image, hm, hdel], ?_, by simp [delete_image, hm, hdel]⟩
      simp [delete_image, hm, hdel, alistLookup_insert_self, mem_setAdd_self]
  | some r =>
      cases destroyRaises with
      | true =>
          refine ⟨by simp [delete_image, hm, hdel], ?_, by simp [delete_image, hm, hdel]⟩
          simp [delete_image, hm, hdel, alistLookup_insert_self, mem_setAdd_self]
      | false =>
          refine ⟨by simp [delete_image, hm, hdel], ?_, by simp⟩
          simp [delete_image, hm, hdel, alistLookup_insert_self, mem_setAdd_self]

/-- C7: a filename listed by `/api/images` for a session is retrievable
via `GET /api/images/<filename>` (a redirect to the remote url) before
deletion, and returns 404 for that session after
`DELETE /api/delete/<filename>` — whether or not the remote delete call
raises. -/
theorem c7_roundtrip_get_delete
    (parse : String → Option Int) (now : Int) (folders : List (List RemoteAsset))
    (b : Bool) (st : AppState) (uid fname : String) (dels : List String) (start : Int)
    (hdel : alistLookup st.user_deleted_images uid = some dels)
    (hstart : alistLookup st.user_session_start_times uid = some start)
    (hlisted : fname ∈ (listingOf st.image_metadata dels start).map VisibleImage.filename) :
    (∃ u, (get_image parse now folders st (some uid) fname).1 = .redirectTo u)
    ∧ (get_image parse now folders ((delete_image b st (some uid) fname).2)
        (some uid) fname).1 = .notAvailable := by
  obtain ⟨⟨k, v⟩, hmem, hfn, hnotdel, hts⟩ := filename_mem_listingOf.mp hlisted
  simp only at hfn
  subst hfn
  obtain ⟨r, hr⟩ := alistLookup_isSome_of_mem hmem
  constructor
  · exact ⟨r.url, by simp [get_image, hdel, hnotdel, hr]⟩
  · have hmem2 : k ∈ setAdd dels k := mem_setAdd_self dels k
    cases b with
    | true => simp [delete_image, hr, hdel, get_image, alistLookup_insert_self, hmem2]
    | false => simp [delete_image, hr, hdel, get_image, alistLookup_insert_self, hmem2]

/-- C8: for an established session, `/api/reset-session` sets the
session's start time to the current time and clears its deletion set;
afterwards any image whose timestamp is strictly below the new start
time is absent from the session's `/api/images` listing, even if it was
never deleted. -/
theorem c8_reset_session_semantics
    (parse : String → Option Int) (now now2 : Int) (folders : List (List RemoteAsset))
    (st : AppState) (uid fname : String) (r : ImageRecord)
    (hnd : keysNodup (sync_cloudinary_images parse now2 st.image_metadata folders))
    (hrec : alistLookup (sync_cloudinary_images parse now2 st.image_metadata folders) fname
      = some r)
    (hts : r.timestamp < now) :
    alistLookup ((reset_session now st (some uid)).2).user_session_start_times uid = some now
    ∧ alistLookup ((reset_session now st (some uid)).2).user_deleted_images uid = some []
    ∧ (list_images parse now2 folders ((reset_session now st (some uid)).2) (some uid)).1
        = .listing
            (listingOf (sync_cloudinary_images parse now2 st.image_metadata folders) [] now)
    ∧ fname ∉ (listingOf (sync_cloudinary_images parse now2 st.image_metadata folders)
        [] now).map VisibleImage.filename := by
  refine ⟨by simp [reset_session, alistLookup_insert_self],
    by simp [reset_session, alistLookup_insert_self],
    by simp [reset_session, list_images, alistLookup_insert_self], ?_⟩
  intro hmem
  obtain ⟨⟨k, v⟩, hkv, hfn, _, hts2⟩ := filename_mem_listingOf.mp hmem
  simp only at hfn
  subst hfn
  have hv := alistLookup_eq_of_mem_nodup hnd hkv
  rw [hrec] at hv
  have hvr : v = r := (Option.some.inj hv).symm
  subst hvr
  exact absurd hts2 (not_le.mpr hts)

/-- C2 counterexample: reconciliation is not idempotent for arbitrary
metadata and a fixed remote listing.  Here the metadata already holds a
record for remote id `idZ` under the filename `whiteboard_7.png`.  In
the first run, asset `f/whiteboard_5` is inserted as
`whiteboard_5.png`, asset `idZ` is skipped (its id is present), and
asset `f/whiteboard_7` overwrites the `whiteboard_7.png` entry — erasing
the only record with id `idZ`.  In the second run, asset `idZ` is
therefore no longer known and is re-inserted, overwriting
`whiteboard_5.png`, so the second run changes the mapping. -/
theorem c2_counterexample :
    fetch_cloudinary_folder_images (parseFixed "t5" 5) 999
        (fetch_cloudinary_folder_images (parseFixed "t5" 5) 999
          [("whiteboard_7.png", ⟨7, "idZ", "u"⟩)]
          [⟨"f/whiteboard_5", some "png", "", "uL"⟩, ⟨"idZ", some "png", "t5", "uZ"⟩,
            ⟨"f/whiteboard_7", some "png", "", "uW"⟩])
        [⟨"f/whiteboard_5", some "png", "", "uL"⟩, ⟨"idZ", some "png", "t5", "uZ"⟩,
          ⟨"f/whiteboard_7", some "png", "", "uW"⟩]
      ≠ fetch_cloudinary_folder_images (parseFixed "t5" 5) 999
          [("whiteboard_7.png", ⟨7, "idZ", "u"⟩)]
          [⟨"f/whiteboard_5", some "png", "", "uL"⟩, ⟨"idZ", some "png", "t5", "uZ"⟩,
            ⟨"f/whiteboard_7", some "png", "", "uW"⟩] := by
  decide

/-- C2 (amended): reconciliation is idempotent whenever every remote
asset's id is referenced by the metadata produced by the first run (no
inserted record was lost to a synthesized-filename collision): the
second run then inserts nothing, so
`reconcile(reconcile(M, R), R) = reconcile(M, R)` and no duplicate or
additional records are created. -/
theorem c2_reconcile_idempotent_amended
    (parse : String → Option Int) (now : Int) (m : List (String × ImageRecord))
    (listing : List RemoteAsset)
    (h : ∀ a ∈ listing,
      hasId (fetch_cloudinary_folder_images parse now m listing) a.public_id = true) :
    fetch_cloudinary_folder_images parse now
        (fetch_cloudinary_folder_images parse now m listing) listing
      = fetch_cloudinary_folder_images parse now m listing :=
  foldl_processAsset_skip parse now h

/-- C3 counterexample: the remote id `cap/whiteboard_5` appears in both
the primary folder listing and the legacy folder listing, yet after
reconciliation there are zero records for it, not exactly one.  The
primary run inserts its record at the synthesized filename
`whiteboard_5.png`; the legacy duplicate is skipped, but the legacy
folder also holds `leg/xwhiteboard_5`, whose base name passes the
substring rule with the same digits, so its insert at the same
filename `whiteboard_5.png` (line 184) evicts the primary-folder
record. -/
theorem c3_counterexample :
    countId
        (sync_cloudinary_images (parseFixed "n" 0) 10 []
          [[⟨"cap/whiteboard_5", some "png", "", "ua"⟩],
            [⟨"cap/whiteboard_5", some "png", "", "ub"⟩,
              ⟨"leg/xwhiteboard_5", some "png", "", "uc"⟩]])
        "cap/whiteboard_5" = 0 := by
  decide

/-- C3 (amended): a legacy occurrence of a remote id is skipped whenever
some metadata record still references that id when it is processed, so
the duplicate itself never overwrites or adds a record: reconciliation
of primary folder then legacy folder with the duplicate present yields
exactly the mapping of the run without the duplicate occurrence, with
the same record count for that id.  In particular, when the two
occurrences are the only assets and the id is new locally (so no other
asset's synthesized filename can evict the primary record), exactly one
record results for that id — the one created from the earlier-priority
folder.  Without that no-eviction proviso a collider asset can evict
the primary record, leaving zero records for the duplicated id. -/
theorem c3_duplicate_remote_id_amended
    (parse : String → Option Int) (now : Int) (m : List (String × ImageRecord))
    (primary before after : List RemoteAsset) (b : RemoteAsset)
    (hkeep : hasId (fetch_cloudinary_folder_images parse now
        (fetch_cloudinary_folder_images parse now m primary) before) b.public_id = true) :
    sync_cloudinary_images parse now m [primary, before ++ b :: after]
      = sync_cloudinary_images parse now m [primary, before ++ after]
    ∧ countId (sync_cloudinary_images parse now m [primary, before ++ b :: after]) b.public_id
      = countId (sync_cloudinary_images parse now m [primary, before ++ after]) b.public_id
    ∧ (∀ a : RemoteAsset, b.public_id = a.public_id → hasId m a.public_id = false →
        sync_cloudinary_images parse now m [[a], [b]]
          = alistInsert m (synthFilename (synthTimestamp parse now a) (a.format.getD "png"))
              ⟨synthTimestamp parse now a, a.public_id, a.secure_url⟩
        ∧ countId (sync_cloudinary_images parse now m [[a], [b]]) a.public_id = 1) := by
  have fetch_append : ∀ (l1 l2 : List RemoteAsset) (mm : List (String × ImageRecord)),
      fetch_cloudinary_folder_images parse now mm (l1 ++ l2)
        = fetch_cloudinary_folder_images parse now
            (fetch_cloudinary_folder_images parse now mm l1) l2 := by
    intro l1 l2 mm
    simp [fetch_cloudinary_folder_images, List.foldl_append]
  have hkey : sync_cloudinary_images parse now m [primary, before ++ b :: after]
      = sync_cloudinary_images parse now m [primary, before ++ after] := by
    show fetch_cloudinary_folder_images parse now
          (fetch_cloudinary_folder_images parse now m primary) (before ++ b :: after)
        = fetch_cloudinary_folder_images parse now
            (fetch_cloudinary_folder_images parse now m primary) (before ++ after)
    rw [fetch_append, fetch_append]
    show fetch_cloudinary_folder_images parse now
          (processAsset parse now
            (fetch_cloudinary_folder_images parse now
              (fetch_cloudinary_folder_images parse now m primary) before) b) after
        = _
    rw [processAsset_of_hasId parse now hkeep]
  refine ⟨hkey, by rw [hkey], ?_⟩
  intro a hsame hfresh
  have h1 : sync_cloudinary_images parse now m [[a], [b]]
      = processAsset parse now (processAsset parse now m a) b := rfl
  have h2 : processAsset parse now m a
      = alistInsert m (synthFilename (synthTimestamp parse now a) (a.format.getD "png"))
          ⟨synthTimestamp parse now a, a.public_id, a.secure_url⟩ := by
    simp [processAsset, hfresh]
  have h3 : hasId (processAsset parse now m a) b.public_id = true := by
    rw [h2, hsame]
    exact hasId_alistInsert_self m _ _ _ _
  constructor
  · rw [h1, processAsset_of_hasId _ _ h3, h2]
  · rw [h1, processAsset_of_hasId _ _ h3, h2]
    exact countId_alistInsert_fresh _ _ _ hfresh

/-- C4 counterexample: the reconciler's record synthesis does not follow
the spec's anchored pattern `whiteboard_<digits>`.  For the remote
asset `whiteboard_captures/xwhiteboard_45` (derived base name
`xwhiteboard_45`, which does not match the anchored pattern, with a
parseable creation time mapping to 500), the spec's rule would give
timestamp 500 and filename `whiteboard_500.png`, but the code's
substring rule extracts the digits 45, producing timestamp 45 and
filename `whiteboard_45.png`. -/
theorem c4_synthesis_counterexample :
    processAsset (parseFixed "2025-01-01T00:00:00Z" 500) 7 []
        ⟨"whiteboard_captures/xwhiteboard_45", some "png", "2025-01-01T00:00:00Z", "u4"⟩
      ≠ alistInsert []
          (synthFilename
            (specSynthTimestamp (parseFixed "2025-01-01T00:00:00Z" 500) 7
              ⟨"whiteboard_captures/xwhiteboard_45", some "png", "2025-01-01T00:00:00Z", "u4"⟩)
            "png")
          ⟨specSynthTimestamp (parseFixed "2025-01-01T00:00:00Z" 500) 7
              ⟨"whiteboard_captures/xwhiteboard_45", some "png", "2025-01-01T00:00:00Z", "u4"⟩,
            "whiteboard_captures/xwhiteboard_45", "u4"⟩ := by
  decide

/-- C4 (amended): for every remote asset not yet known locally, the
reconciler inserts a record at filename
`whiteboard_<timestamp>.<format>` holding the asset's id and url, where
the timestamp is: the digits between the first occurrence of
`whiteboard_` in the derived base name and the following `.` when they
form a nonempty digit string (a substring rule, not the anchored
pattern `whiteboard_<digits>`); otherwise the parsed creation time;
otherwise (creation time absent or unparseable) the current wall-clock
time. -/
theorem c4_synthesis_amended
    (parse : String → Option Int) (now : Int) (m : List (String × ImageRecord))
    (a : RemoteAsset)
    (hfresh : hasId m a.public_id = false) :
    processAsset parse now m a
      = alistInsert m
          ("whiteboard_" ++ toString (synthTimestamp parse now a) ++ "." ++ a.format.getD "png")
          ⟨synthTimestamp parse now a, a.public_id, a.secure_url⟩
    ∧ (∀ d, whiteboardDigits (basename a.public_id) = some d →
        synthTimestamp parse now a = (d : Int))
    ∧ (whiteboardDigits (basename a.public_id) = none → a.created_at ≠ "" →
        ∀ t, parse a.created_at = some t → synthTimestamp parse now a = t)
    ∧ (whiteboardDigits (basename a.public_id) = none →
        a.created_at = "" ∨ parse a.created_at = none → synthTimestamp parse now a = now) := by
  refine ⟨by simp [processAsset, hfresh, synthFilename], ?_, ?_, ?_⟩
  · intro d hd
    simp [synthTimestamp, hd]
  · intro hn hne t ht
    simp [synthTimestamp, hn, fallbackTimestamp, hne, ht]
  · intro hn hcases
    rcases hcases with hc | hc
    · simp [synthTimestamp, hn, fallbackTimestamp, hc]
    · by_cases hce : a.created_at = ""
      · simp [synthTimestamp, hn, fallbackTimestamp, hce]
      · simp [synthTimestamp, hn, fallbackTimestamp, hce, hc]

/-- C5: for an established session, `/api/download` zips and
`/api/download-pdf` paginates exactly the listing `/api/images`
computes; that listing is in non-decreasing timestamp order, and the
zip entries and PDF pages are that listing restricted (in order) to the
images whose byte fetch succeeds. -/
theorem c5_export_order
    (parse : String → Option Int) (now : Int) (folders : List (List RemoteAsset))
    (fetch : String → Option String) (st : AppState) (uid : String)
    (dels : List String) (start : Int)
    (hdel : alistLookup st.user_deleted_images uid = some dels)
    (hstart : alistLookup st.user_session_start_times uid = some start) :
    (list_images parse now folders st (some uid)).1
      = .listing
          (listingOf (sync_cloudinary_images parse now st.image_metadata folders) dels start)
    ∧ (download_all parse now folders fetch st (some uid)).1
      = .zipFile (download_all_entries fetch
          (sync_cloudinary_images parse now st.image_metadata folders) dels start)
    ∧ (download_pdf parse now folders fetch st (some uid)).1
      = .pdfFile (download_pdf_pages fetch
          (sync_cloudinary_images parse now st.image_metadata folders) dels start)
    ∧ List.Pairwise (fun x y => x.timestamp ≤ y.timestamp)
        (listingOf (sync_cloudinary_images parse now st.image_metadata folders) dels start)
    ∧ (download_all_entries fetch
        (sync_cloudinary_images parse now st.image_metadata folders) dels start).map Prod.fst
      = ((listingOf (sync_cloudinary_images parse now st.image_metadata folders) dels
          start).filter (fun i => (fetch i.url).isSome)).map VisibleImage.filename
    ∧ download_pdf_pages fetch
        (sync_cloudinary_images parse now st.image_metadata folders) dels start
      = ((listingOf (sync_cloudinary_images parse now st.image_metadata folders) dels
          start).filter (fun i => (fetch i.url).isSome)).map (fun i => (fetch i.url).getD "") := by
  refine ⟨by simp [list_images, hdel, hstart], by simp [download_all, hdel, hstart],
    by simp [download_pdf, hdel, hstart], sorted_listingOf _ _ _, ?_, ?_⟩
  · rw [download_all_entries_eq, zip_entry_names]
  · rw [download_pdf_pages_eq, pdf_pages_as_filter]

/-- C6: a failed byte fetch (non-success status) for one visible image
only drops that image from the zip/PDF: no entry or page is produced
for it, while every other visible image whose fetch succeeds still gets
its zip entry, and the PDF still has one page per successful fetch. -/
theorem c6_fetch_failure_skips_single_image
    (fetch : String → Option String) (m : List (String × ImageRecord))
    (dels : List String) (start : Int) (img : VisibleImage)
    (hnd : keysNodup m)
    (hmem : img ∈ listingOf m dels start)
    (hfail : fetch img.url = none) :
    (∀ b, (img.filename, b) ∉ download_all_entries fetch m dels start)
    ∧ (∀ other ∈ listingOf m dels start, ∀ b, fetch other.url = some b →
        (other.filename, b) ∈ download_all_entries fetch m dels start)
    ∧ (download_pdf_pages fetch m dels start).length
      = ((listingOf m dels start).filter (fun i => (fetch i.url).isSome)).length := by
  refine ⟨?_, ?_, ?_⟩
  · intro b hb
    rw [download_all_entries_eq] at hb
    rcases List.mem_filterMap.mp hb with ⟨i, hi, hgi⟩
    cases hfi : fetch i.url with
    | none =>
        rw [hfi] at hgi
        simp at hgi
    | some c =>
        rw [hfi] at hgi
        simp only [Option.map_some', Option.some.injEq, Prod.mk.injEq] at hgi
        have hieq : i = img :=
          List.inj_on_of_nodup_map (nodup_listingOf_filenames hnd) hi hmem hgi.1
        rw [hieq] at hfi
        rw [hfi] at hfail
        exact Option.noConfusion hfail
  · intro other hother b hb
    rw [download_all_entries_eq]
    exact List.mem_filterMap.mpr ⟨other, hother, by simp [hb]⟩
  · rw [download_pdf_pages_eq, pdf_pages_as_filter, List.length_map]

/-! Concrete witnesses instantiating the hypothesis-bearing claim
theorems. -/

theorem c1_witness :
    ("whiteboard_3.png" ∈ (listingOf [("whiteboard_3.png", (⟨3, "id3", "u3"⟩ : ImageRecord))]
        [] 2).map VisibleImage.filename)
      ↔ ((2 : Int) ≤ 3 ∧ "whiteboard_3.png" ∉ ([] : List String)) :=
  (c1_listing_visibility_iff (parseFixed "x" 0) 0 []
    ⟨[("whiteboard_3.png", ⟨3, "id3", "u3"⟩)], [("U1", [])], [("U1", 2)]⟩
    "U1" "whiteboard_3.png" [] 2 ⟨3, "id3", "u3"⟩
    (by decide) (by decide) (by decide) (by decide)).2

theorem c2_witness :
    fetch_cloudinary_folder_images (parseFixed "z" 0) 50
        (fetch_cloudinary_folder_images (parseFixed "z" 0) 50 []
          [⟨"f/whiteboard_3", some "png", "", "w"⟩])
        [⟨"f/whiteboard_3", some "png", "", "w"⟩]
      = fetch_cloudinary_folder_images (parseFixed "z" 0) 50 []
          [⟨"f/whiteboard_3", some "png", "", "w"⟩] :=
  c2_reconcile_idempotent_amended (parseFixed "z" 0) 50 []
    [⟨"f/whiteboard_3", some "png", "", "w"⟩] (by decide)

theorem c3_witness :
    sync_cloudinary_images (parseFixed "q" 1) 10 []
        [[⟨"whiteboard_captures/whiteboard_9", some "png", "", "ua"⟩],
          [⟨"whiteboard_captures/whiteboard_9", some "jpg", "x", "ub"⟩]]
      = sync_cloudinary_images (parseFixed "q" 1) 10 []
          [[⟨"whiteboard_captures/whiteboard_9", some "png", "", "ua"⟩], []] :=
  (c3_duplicate_remote_id_amended (parseFixed "q" 1) 10 []
    [⟨"whiteboard_captures/whiteboard_9", some "png", "", "ua"⟩] [] []
    ⟨"whiteboard_captures/whiteboard_9", some "jpg", "x", "ub"⟩ (by decide)).1

theorem c4_witness :
    processAsset (parseFixed "p" 2) 11 []
        ⟨"whiteboard_captures/whiteboard_77", some "png", "", "uw"⟩
      = alistInsert []
          ("whiteboard_" ++
              toString (synthTimestamp (parseFixed "p" 2) 11
                ⟨"whiteboard_captures/whiteboard_77", some "png", "", "uw"⟩) ++
            "." ++ (some "png").getD "png")
          ⟨synthTimestamp (parseFixed "p" 2) 11
              ⟨"whiteboard_captures/whiteboard_77", some "png", "", "uw"⟩,
            "whiteboard_captures/whiteboard_77", "uw"⟩ :=
  (c4_synthesis_amended (parseFixed "p" 2) 11 []
    ⟨"whiteboard_captures/whiteboard_77", some "png", "", "uw"⟩ (by decide)).1

theorem c5_witness :
    List.Pairwise (fun x y => x.timestamp ≤ y.timestamp)
      (listingOf [("whiteboard_4.png", (⟨4, "i4", "u4"⟩ : ImageRecord))] [] 0) :=
  (c5_export_order (parseFixed "a" 0) 0 [] (fetchExcept "nope")
    ⟨[("whiteboard_4.png", ⟨4, "i4", "u4"⟩)], [("U5", [])], [("U5", 0)]⟩
    "U5" [] 0 (by decide) (by decide)).2.2.2.1

theorem c6_witness :
    ("a.png", "zzz") ∉ download_all_entries (fetchExcept "ua")
        [("a.png", (⟨1, "ia", "ua"⟩ : ImageRecord)), ("b.png", ⟨2, "ib", "ub"⟩)] [] 0 :=
  (c6_fetch_failure_skips_single_image (fetchExcept "ua")
    [("a.png", ⟨1, "ia", "ua"⟩), ("b.png", ⟨2, "ib", "ub"⟩)] [] 0
    ⟨"a.png", 1, "ua"⟩ (by decide) (by decide) (by decide)).1 "zzz"

theorem c7_witness :
    (get_image (parseFixed "c" 3) 0 []
        ((delete_image true
          ⟨[("whiteboard_6.png", ⟨6, "i6", "u6"⟩)], [("U7", [])], [("U7", 5)]⟩
          (some "U7") "whiteboard_6.png").2)
        (some "U7") "whiteboard_6.png").1 = GetImageResult.notAvailable :=
  (c7_roundtrip_get_delete (parseFixed "c" 3) 0 [] true
    ⟨[("whiteboard_6.png", ⟨6, "i6", "u6"⟩)], [("U7", [])], [("U7", 5)]⟩
    "U7" "whiteboard_6.png" [] 5 (by decide) (by decide) (by decide)).2

theorem c8_witness :
    "whiteboard_2.png" ∉ (listingOf [("whiteboard_2.png", (⟨2, "i2", "u2"⟩ : ImageRecord))]
        [] 10).map VisibleImage.filename :=
  (c8_reset_session_semantics (parseFixed "d" 4) 10 0 []
    ⟨[("whiteboard_2.png", ⟨2, "i2", "u2"⟩)], [("U8", ["old.png"])], [("U8", 1)]⟩
    "U8" "whiteboard_2.png" ⟨2, "i2", "u2"⟩ (by decide) (by decide) (by decide)).2.2.2

theorem c9_witness :
    (get_image (parseFixed "e" 5) 0 []
        ⟨[("whiteboard_1.png", ⟨1, "i1", "u1"⟩)], [("U9", [])], [("U9", 50)]⟩
        (some "U9") "whiteboard_1.png").1 = GetImageResult.redirectTo "u1" :=
  c9_get_image_ignores_time_window (parseFixed "e" 5) 0 []
    ⟨[("whiteboard_1.png", ⟨1, "i1", "u1"⟩)], [("U9", [])], [("U9", 50)]⟩
    "U9" "whiteboard_1.png" [] 50 ⟨1, "i1", "u1"⟩
    (by decide) (by decide) (by decide) (by decide) (by decide)

theorem c10_witness :
    ((delete_image true
        ⟨[("whiteboard_8.png", ⟨8, "i8", "u8"⟩)], [("U10", [])], [("U10", 0)]⟩
        (some "U10") "whiteboard_8.png").2).image_metadata
      = [("whiteboard_8.png", (⟨8, "i8", "u8"⟩ : ImageRecord))] :=
  (c10_delete_always_succeeds true
    ⟨[("whiteboard_8.png", ⟨8, "i8", "u8"⟩)], [("U10", [])], [("U10", 0)]⟩
    "U10" "whiteboard_8.png" [] (by decide)).2.2 rfl

end Whiteboard
